import Mathlib

/-!
Shallow embedding of the gesture-driven tree experience.

Sources embedded here:
* `src/services/geminiLiveService.ts` — `tryParseJSON` (regex brace match,
  `JSON.parse`, field checks, clamping) and the `startVideoStreaming` tick guard.
* `src/components/Tree.tsx` — `FoliageSystem` and `InstancedDecor` per-frame
  progress updates (`THREE.MathUtils.lerp` with `delta * speed`), the foliage
  vertex shader's cubic-ease blend and `InstancedDecor`'s `lerpVectors` blend.
* `src/components/Experience.tsx` — `CameraController` per-frame update.
* `src/unnamed/part_000` — the `HandState` enum and `HandData` shape.

Real-number quantities (JS doubles) are modelled as exact rationals `ℚ`;
JS `NaN`/`Infinity` are modelled by the `JSNum` wrapper where they can arise
(the published signal fields).  Strings are modelled as `List Char`.
-/

/-- three.js `THREE.MathUtils.lerp(x, y, t) = (1 - t) * x + t * y`.
Used by both progress updates in `Tree.tsx` and by `CameraController`. -/
def lerp (x y t : ℚ) : ℚ := (1 - t) * x + t * y

/-- Source `src/unnamed/part_000` lines 159-163: `enum HandState { CLOSED, OPEN, UNKNOWN }`. -/
inductive HandState
  | CLOSED
  | OPEN
  | UNKNOWN
deriving DecidableEq, Repr

/-- A JS number as it can appear in the published signal: a finite value,
`NaN`, or a signed infinity (reachable through JS `ToNumber` coercions). -/
inductive JSNum
  | nan
  | inf
  | negInf
  | num (q : ℚ)
deriving DecidableEq, Repr

/-- Source `src/unnamed/part_000` lines 165-169: `interface HandData { state; x; y }`. -/
structure HandData where
  state : HandState
  x : JSNum
  y : JSNum
deriving DecidableEq, Repr

/-- JSON values as produced by `JSON.parse`. -/
inductive Json
  | null
  | bool (b : Bool)
  | num (q : ℚ)
  | str (s : List Char)
  | arr (xs : List Json)
  | obj (fields : List (List Char × Json))

/-- JSON whitespace accepted by `JSON.parse` between tokens. -/
def jsonWs (c : Char) : Bool := c == ' ' || c == '\t' || c == '\n' || c == '\r'

def skipWs (cs : List Char) : List Char := cs.dropWhile jsonWs

def digitVal (c : Char) : ℕ := c.toNat - '0'.toNat

/-- Split a leading run of decimal digits off the input. -/
def splitDigits (cs : List Char) : List Char × List Char :=
  (cs.takeWhile Char.isDigit, cs.dropWhile Char.isDigit)

def digitsVal (ds : List Char) : ℕ := ds.foldl (fun a c => a * 10 + digitVal c) 0

def hexDigitVal (c : Char) : Option ℕ :=
  if c.isDigit then some (digitVal c)
  else
    let l := c.toLower
    if 'a' ≤ l && l ≤ 'f' then some (l.toNat - 'a'.toNat + 10) else none

/-- Multiply or divide by a power of ten according to a signed exponent. -/
def applyExp (q : ℚ) (e : ℤ) : ℚ :=
  if 0 ≤ e then q * 10 ^ e.toNat else q / 10 ^ (-e).toNat

/-- Strict JSON number grammar (`-? int frac? exp?`); returns the value and
the unconsumed rest, or `none` on a malformed number (where `JSON.parse`
throws).  Leading zeros (`01`) are rejected as in JSON. -/
def parseNum (cs : List Char) : Option (ℚ × List Char) :=
  let (neg, c1) := match cs with
    | '-' :: r => (true, r)
    | r => (false, r)
  let (ids, c2) := splitDigits c1
  if ids.isEmpty then none
  else if 1 < ids.length && ids.head? == some '0' then none
  else
    let intPart : ℚ := (digitsVal ids : ℚ)
    let fracStep : Option (ℚ × List Char) :=
      match c2 with
      | '.' :: r =>
        let (fds, c3) := splitDigits r
        if fds.isEmpty then none
        else some (intPart + (digitsVal fds : ℚ) / 10 ^ fds.length, c3)
      | _ => some (intPart, c2)
    match fracStep with
    | none => none
    | some (q, c4) =>
      match c4 with
      | 'e' :: r => parseNumExp q neg r
      | 'E' :: r => parseNumExp q neg r
      | _ => some (if neg then -q else q, c4)
where
  parseNumExp (q : ℚ) (neg : Bool) (r : List Char) : Option (ℚ × List Char) :=
    let (esgn, r1) : ℤ × List Char := match r with
      | '+' :: rr => (1, rr)
      | '-' :: rr => (-1, rr)
      | rr => (1, rr)
    let (eds, r2) := splitDigits r1
    if eds.isEmpty then none
    else some ((if neg then -applyExp q (esgn * digitsVal eds) else applyExp q (esgn * digitsVal eds)), r2)

/-- JSON string body after the opening quote; handles the escape sequences of
`JSON.parse` and rejects raw control characters.  `\uXXXX` denoting a
surrogate half is outside `Char`'s range and maps to `Char.ofNat`'s default;
no claim depends on it. -/
def parseStrBody : List Char → Option (List Char × List Char)
  | '"' :: rest => some ([], rest)
  | '\\' :: 'u' :: a :: b :: c :: d :: rest => do
    let ha ← hexDigitVal a
    let hb ← hexDigitVal b
    let hc ← hexDigitVal c
    let hd ← hexDigitVal d
    let (s, r) ← parseStrBody rest
    some (Char.ofNat (((ha * 16 + hb) * 16 + hc) * 16 + hd) :: s, r)
  | '\\' :: e :: rest => do
    let ch ← match e with
      | '"' => some '"'
      | '\\' => some '\\'
      | '/' => some '/'
      | 'b' => some '\x08'
      | 'f' => some '\x0c'
      | 'n' => some '\n'
      | 'r' => some '\r'
      | 't' => some '\t'
      | _ => none
    let (s, r) ← parseStrBody rest
    some (ch :: s, r)
  | c :: rest =>
    if c.toNat < 32 then none
    else do
      let (s, r) ← parseStrBody rest
      some (c :: s, r)
  | [] => none

mutual

/-- Fuel-indexed recursive-descent JSON value parser (the core of
`JSON.parse`); `none` stands for the exception `JSON.parse` throws. -/
def parseVal : ℕ → List Char → Option (Json × List Char)
  | 0, _ => none
  | Nat.succ fuel, cs =>
    match skipWs cs with
    | 'n' :: 'u' :: 'l' :: 'l' :: rest => some (Json.null, rest)
    | 't' :: 'r' :: 'u' :: 'e' :: rest => some (Json.bool true, rest)
    | 'f' :: 'a' :: 'l' :: 's' :: 'e' :: rest => some (Json.bool false, rest)
    | '"' :: rest => (parseStrBody rest).map fun p => (Json.str p.1, p.2)
    | '[' :: rest =>
      (match skipWs rest with
       | ']' :: r2 => some (Json.arr [], r2)
       | r2 => (parseElems fuel r2).map fun p => (Json.arr p.1, p.2))
    | '\x7b' :: rest =>
      (match skipWs rest with
       | '\x7d' :: r2 => some (Json.obj [], r2)
       | r2 => (parseFields fuel r2).map fun p => (Json.obj p.1, p.2))
    | rest => (parseNum rest).map fun p => (Json.num p.1, p.2)

/-- Comma-separated array elements up to the closing bracket. -/
def parseElems : ℕ → List Char → Option (List Json × List Char)
  | 0, _ => none
  | Nat.succ fuel, cs => do
    let (v, r) ← parseVal fuel cs
    match skipWs r with
    | ',' :: r2 => do
      let (vs, r3) ← parseElems fuel r2
      some (v :: vs, r3)
    | ']' :: r2 => some ([v], r2)
    | _ => none

/-- Comma-separated `"key": value` fields up to the closing brace. -/
def parseFields : ℕ → List Char → Option (List (List Char × Json) × List Char)
  | 0, _ => none
  | Nat.succ fuel, cs =>
    match skipWs cs with
    | '"' :: rest => do
      let (k, r) ← parseStrBody rest
      match skipWs r with
      | ':' :: r2 => do
        let (v, r3) ← parseVal fuel r2
        match skipWs r3 with
        | ',' :: r4 => do
          let (fs, r5) ← parseFields fuel r4
          some ((k, v) :: fs, r5)
        | '\x7d' :: r4 => some ([(k, v)], r4)
        | _ => none
      | _ => none
    | _ => none

end

/-- The whole of `JSON.parse`: parse one value and require only whitespace to remain.
The fuel `2 * length + 4` dominates the recursion depth, which consumes at
least one character every second recursive call. -/
def jsonParse (cs : List Char) : Option Json :=
  match parseVal (2 * cs.length + 4) cs with
  | some (j, rest) => if (skipWs rest).isEmpty then some j else none
  | none => none

/-- Line terminators that the `.` of a JS regex does not match. -/
def lineTerm (c : Char) : Bool :=
  c == '\n' || c == '\r' || c == '\u2028' || c == '\u2029'

def takeLine (cs : List Char) : List Char := cs.takeWhile (fun c => !lineTerm c)

/-- Split a list at its LAST closing brace: returns `(before, after)` such
that the input is `before`, then the closing brace, then `after`; `none`
when there is no closing brace. -/
def lastCloseSplit : List Char → Option (List Char × List Char)
  | [] => none
  | c :: rest =>
    match lastCloseSplit rest with
    | some (a, b) => some (c :: a, b)
    | none => if c == '\x7d' then some ([], rest) else none

/-- The regex step `text.match(/\x7b.*\x7d/)` of `tryParseJSON`: the leftmost-greedy match of
an opening brace followed by anything (no line terminators) up to the last
closing brace before the next line terminator. -/
def jsMatchBrace : List Char → Option (List Char)
  | [] => none
  | c :: rest =>
    if c == '\x7b' then
      match lastCloseSplit (takeLine rest) with
      | some (content, _) => some ('\x7b' :: content ++ ['\x7d'])
      | none => jsMatchBrace rest
    else jsMatchBrace rest

def stateKey : List Char := ['s', 't', 'a', 't', 'e']

def xKey : List Char := ['x']

def yKey : List Char := ['y']

def openChars : List Char := ['O', 'P', 'E', 'N']

def closedChars : List Char := ['C', 'L', 'O', 'S', 'E', 'D']

def unknownChars : List Char := ['U', 'N', 'K', 'N', 'O', 'W', 'N']

/-- JS property access `value.key` on a `JSON.parse` result: field lookup on
an object (later duplicate keys win, as in JS), `undefined` (`none`)
otherwise.  (`null.key` throws in JS, but that exception is swallowed by the
enclosing `try`, observationally identical to `none` here.) -/
def jsGet (j : Json) (k : List Char) : Option Json :=
  match j with
  | Json.obj fs => fs.foldl (fun acc f => if f.1 = k then some f.2 else acc) none
  | _ => none

/-- JS truthiness of a possibly-absent `JSON.parse` value, as used by
`if (json.state && ...)`. -/
def truthy : Option Json → Bool
  | none => false
  | some Json.null => false
  | some (Json.bool b) => b
  | some (Json.num q) => if q = 0 then false else true
  | some (Json.str s) => !s.isEmpty
  | some (Json.arr _) => true
  | some (Json.obj _) => true

/-- JS `typeof v === 'number'` for a possibly-absent `JSON.parse` value. -/
def isNum : Option Json → Bool
  | some (Json.num _) => true
  | _ => false

/-- JS `json.state === 'OPEN'`: strict equality against the string literal. -/
def isOpenStr : Option Json → Bool
  | some (Json.str s) => s == openChars
  | _ => false

/-- JS whitespace trimmed by `Number(string)` (ASCII subset; the claims never
reach the Unicode space characters). -/
def jsStrWs (c : Char) : Bool :=
  c == ' ' || c == '\t' || c == '\n' || c == '\r' || c == '\x0b' || c == '\x0c'

def jsTrim (cs : List Char) : List Char :=
  ((cs.dropWhile jsStrWs).reverse.dropWhile jsStrWs).reverse

/-- Lenient decimal literal of JS `Number(string)`: `digits ['.' digits*]` or
`'.' digits+`, with an optional exponent, consuming the whole input. -/
def parseDecFull (cs : List Char) : Option ℚ :=
  let (ids, r1) := splitDigits cs
  let mantissa : Option (ℚ × List Char) :=
    match r1 with
    | '.' :: r2 =>
      let (fds, r3) := splitDigits r2
      if ids.isEmpty && fds.isEmpty then none
      else some ((digitsVal ids : ℚ) + (digitsVal fds : ℚ) / 10 ^ fds.length, r3)
    | _ => if ids.isEmpty then none else some ((digitsVal ids : ℚ), r1)
  match mantissa with
  | none => none
  | some (q, rest) =>
    match rest with
    | [] => some q
    | 'e' :: r => parseDecExp q r
    | 'E' :: r => parseDecExp q r
    | _ => none
where
  parseDecExp (q : ℚ) (r : List Char) : Option ℚ :=
    let (esgn, r1) : ℤ × List Char := match r with
      | '+' :: rr => (1, rr)
      | '-' :: rr => (-1, rr)
      | rr => (1, rr)
    let (eds, r2) := splitDigits r1
    if eds.isEmpty || !r2.isEmpty then none
    else some (applyExp q (esgn * digitsVal eds))

def hexVal (ds : List Char) : Option ℕ :=
  ds.foldl (fun acc c => do
    let a ← acc
    let h ← hexDigitVal c
    some (a * 16 + h)) (some 0)

def infinityChars : List Char := ['I', 'n', 'f', 'i', 'n', 'i', 't', 'y']

/-- JS `Number(string)`: trim, empty means `0`, hex literals, signed decimal
or `Infinity`, anything else is `NaN`. -/
def strToNumber (cs : List Char) : JSNum :=
  match jsTrim cs with
  | [] => JSNum.num 0
  | '0' :: 'x' :: r => (match hexVal r with
      | some v => if r.isEmpty then JSNum.nan else JSNum.num (v : ℚ)
      | none => JSNum.nan)
  | '0' :: 'X' :: r => (match hexVal r with
      | some v => if r.isEmpty then JSNum.nan else JSNum.num (v : ℚ)
      | none => JSNum.nan)
  | t =>
    let (neg, body) : Bool × List Char := match t with
      | '+' :: r => (false, r)
      | '-' :: r => (true, r)
      | r => (false, r)
    if body == infinityChars then (if neg then JSNum.negInf else JSNum.inf)
    else match parseDecFull body with
      | some q => JSNum.num (if neg then -q else q)
      | none => JSNum.nan

/-- JS `ToNumber` of a possibly-absent `JSON.parse` value (`undefined → NaN`,
`null → 0`, booleans, strings via `Number(string)`, arrays via their string
joining to one level, objects → `NaN`). -/
def toNumber : Option Json → JSNum
  | none => JSNum.nan
  | some Json.null => JSNum.num 0
  | some (Json.bool b) => JSNum.num (if b then 1 else 0)
  | some (Json.num q) => JSNum.num q
  | some (Json.str s) => strToNumber s
  | some (Json.arr []) => JSNum.num 0
  | some (Json.arr [Json.null]) => JSNum.num 0
  | some (Json.arr [Json.num q]) => JSNum.num q
  | some (Json.arr [Json.str s]) => strToNumber s
  | some (Json.arr _) => JSNum.nan
  | some (Json.obj _) => JSNum.nan

/-- JS `Math.min` with two arguments (NaN-propagating). -/
def jsMin (a b : JSNum) : JSNum :=
  match a, b with
  | JSNum.nan, _ => JSNum.nan
  | _, JSNum.nan => JSNum.nan
  | JSNum.negInf, _ => JSNum.negInf
  | _, JSNum.negInf => JSNum.negInf
  | JSNum.inf, x => x
  | x, JSNum.inf => x
  | JSNum.num p, JSNum.num q => JSNum.num (min p q)

/-- JS `Math.max` with two arguments (NaN-propagating). -/
def jsMax (a b : JSNum) : JSNum :=
  match a, b with
  | JSNum.nan, _ => JSNum.nan
  | _, JSNum.nan => JSNum.nan
  | JSNum.inf, _ => JSNum.inf
  | _, JSNum.inf => JSNum.inf
  | JSNum.negInf, x => x
  | x, JSNum.negInf => x
  | JSNum.num p, JSNum.num q => JSNum.num (max p q)

/-- Source `src/services/geminiLiveService.ts` lines 93-110, `tryParseJSON`:
locate a brace-delimited substring, `JSON.parse` it, require a truthy
`state` and a numeric `x`, then publish the signal with `x` and `y` clamped
by `Math.max(-1, Math.min(1, ·))` and `state === 'OPEN'` deciding the enum
value.  `none` models "no callback invocation" (including every caught
exception path). -/
def tryParseJSON (text : List Char) : Option HandData :=
  match jsMatchBrace text with
  | none => none
  | some m =>
    match jsonParse m with
    | none => none
    | some j =>
      if truthy (jsGet j stateKey) && isNum (jsGet j xKey) then
        some { state := if isOpenStr (jsGet j stateKey) then HandState.OPEN else HandState.CLOSED,
               x := jsMax (JSNum.num (-1)) (jsMin (JSNum.num 1) (toNumber (jsGet j xKey))),
               y := jsMax (JSNum.num (-1)) (jsMin (JSNum.num 1) (toNumber (jsGet j yKey))) }
      else none

/-- Source `Tree.tsx` line 140 (`FoliageSystem`): `state === OPEN ? 0 : 1`. -/
def foliageTarget (s : HandState) : ℚ :=
  if s = HandState.OPEN then 0 else 1

/-- Source `Tree.tsx` line 144 (`FoliageSystem`): `state === OPEN ? 2.5 : 1.0`. -/
def foliageSpeed (s : HandState) : ℚ :=
  if s = HandState.OPEN then 5 / 2 else 1

/-- Source `Tree.tsx` line 145 (`FoliageSystem`):
`lerp(currentProgress, targetProgress, delta * speed)`. -/
def foliageStep (s : HandState) (delta p : ℚ) : ℚ :=
  lerp p (foliageTarget s) (delta * foliageSpeed s)

/-- Source `Tree.tsx` line 222 (`InstancedDecor`): `state === OPEN ? 0 : 1`. -/
def decorTarget (s : HandState) : ℚ :=
  if s = HandState.OPEN then 0 else 1

/-- Source `Tree.tsx` line 224 (`InstancedDecor`): `state === OPEN ? 3.0 : 1.5`,
before division by the weight. -/
def decorSpeed (s : HandState) : ℚ :=
  if s = HandState.OPEN then 3 else 3 / 2

/-- Source `Tree.tsx` lines 224-226 (`InstancedDecor`):
`lerp(currentProgress, targetP, delta * (speed / weight))`. -/
def decorStep (w : ℚ) (s : HandState) (delta p : ℚ) : ℚ :=
  lerp p (decorTarget s) (delta * (decorSpeed s / w))

/-- Progress after a sequence of rendered frames, each frame supplying the
hand state sampled that frame and the elapsed time `delta`. -/
def foliageRun (frames : List (HandState × ℚ)) (p : ℚ) : ℚ :=
  frames.foldl (fun q f => foliageStep f.1 f.2 q) p

def decorRun (w : ℚ) (frames : List (HandState × ℚ)) (p : ℚ) : ℚ :=
  frames.foldl (fun q f => decorStep w f.1 f.2 q) p

/-- The whole progress trajectory (initial value included). -/
def foliageTraj (frames : List (HandState × ℚ)) (p : ℚ) : List ℚ :=
  List.scanl (fun q f => foliageStep f.1 f.2 q) p frames

def decorTraj (w : ℚ) (frames : List (HandState × ℚ)) (p : ℚ) : List ℚ :=
  List.scanl (fun q f => decorStep w f.1 f.2 q) p frames

/-- A signal held constant at `s` over frames with elapsed times `ds`. -/
def heldFrames (s : HandState) (ds : List ℚ) : List (HandState × ℚ) :=
  ds.map (fun d => (s, d))

/-- Generic fold of `lerp` toward a fixed target with per-frame rates. -/
def lerpFold (t : ℚ) (ts : List ℚ) (p : ℚ) : ℚ :=
  ts.foldl (fun q r => lerp q t r) p

/-- Shader / `InstancedDecor` cubic ease-out: `1.0 - pow(1.0 - t, 3.0)`
(`Tree.tsx` lines 36 and 230). -/
def easeOut (t : ℚ) : ℚ := 1 - (1 - t) ^ 3

@[ext]
structure Vec3 where
  x : ℚ
  y : ℚ
  z : ℚ
deriving DecidableEq, Repr

/-- GLSL `mix(a, b, t) = a * (1 - t) + b * t`, componentwise. -/
def glslMix (a b : Vec3) (t : ℚ) : Vec3 :=
  ⟨a.x * (1 - t) + b.x * t, a.y * (1 - t) + b.y * t, a.z * (1 - t) + b.z * t⟩

/-- Foliage vertex shader lines 34-39: `ease = 1.0 - pow(1.0 - t, 3.0);
pos = mix(aChaosPos, aTargetPos, ease)`. -/
def shaderBlendPos (chaos target : Vec3) (uProgress : ℚ) : Vec3 :=
  glslMix chaos target (easeOut uProgress)

/-- three.js `Vector3.lerpVectors(v1, v2, t)`: `v1 + (v2 - v1) * t`
componentwise. -/
def lerpVectors (v1 v2 : Vec3) (t : ℚ) : Vec3 :=
  ⟨v1.x + (v2.x - v1.x) * t, v1.y + (v2.y - v1.y) * t, v1.z + (v2.z - v1.z) * t⟩

/-- Source `Tree.tsx` lines 230-234 (`InstancedDecor`):
`dummy.position.lerpVectors(item.chaos, item.target, ease)`. -/
def decorBlendPos (chaos target : Vec3) (t : ℚ) : Vec3 :=
  lerpVectors chaos target (easeOut t)

/-- Modelled from the spec: "linear interpolation from its chaos position to
its target position with coefficient e" — the reference the blends are
compared against. -/
def specLerpPos (chaos target : Vec3) (e : ℚ) : Vec3 :=
  ⟨chaos.x + e * (target.x - chaos.x),
   chaos.y + e * (target.y - chaos.y),
   chaos.z + e * (target.z - chaos.z)⟩

/-- Source `Experience.tsx` line 17: `baseX = 0`. -/
def cameraBaseX : ℚ := 0

/-- Source `Experience.tsx` line 18: `baseY = 4`. -/
def cameraBaseY : ℚ := 4

/-- Source `Experience.tsx` line 21: `targetX = baseX + (handData.x * -5)`. -/
def cameraTargetX (hx : ℚ) : ℚ := cameraBaseX + hx * (-5)

/-- Source `Experience.tsx` line 22: `targetY = baseY + (handData.y * 3)`. -/
def cameraTargetY (hy : ℚ) : ℚ := cameraBaseY + hy * 3

/-- Source `Experience.tsx` line 24: `lerp(camera.position.x, targetX, 0.05)` —
note the constant coefficient `0.05`, with no frame delta. -/
def cameraStepX (hx px : ℚ) : ℚ := lerp px (cameraTargetX hx) (1 / 20)

/-- Source `Experience.tsx` line 25: `lerp(camera.position.y, targetY, 0.05)`. -/
def cameraStepY (hy py : ℚ) : ℚ := lerp py (cameraTargetY hy) (1 / 20)

inductive TickResult
  | skipped
  | submitted (canvasW canvasH : ℚ)
deriving DecidableEq, Repr

/-- Source `geminiLiveService.ts` lines 118-126, the body of the 5 Hz interval in
`startVideoStreaming`: `if (!this.sessionPromise || !ctx ||
!videoElement.videoWidth) return;` then draw at half resolution and submit.
The submission itself is abstracted to the canvas dimensions it would use. -/
def videoTick (sessionPromise ctx : Option Unit) (videoWidth videoHeight : ℚ) : TickResult :=
  if sessionPromise.isNone || ctx.isNone || videoWidth == 0 then TickResult.skipped
  else TickResult.submitted (videoWidth * (1 / 2)) (videoHeight * (1 / 2))

/-- The spec's worked example fragment: prose followed by the braced object
with state OPEN, x = 2.5 and y = -3. -/
def exText : List Char :=
  ['h', 'e', 'r', 'e', ' ', 'i', 's', ' ', 't', 'h', 'e', ' ', 'd', 'a', 't', 'a', ' ',
   '\x7b', '\x22', 's', 't', 'a', 't', 'e', '\x22', ':', '\x22', 'O', 'P', 'E', 'N', '\x22', ',',
   '\x22', 'x', '\x22', ':', '2', '.', '5', ',', '\x22', 'y', '\x22', ':', '-', '3', '\x7d']

/-- The brace-delimited substring the regex extracts from `exText`. -/
def exMatch : List Char :=
  ['\x7b', '\x22', 's', 't', 'a', 't', 'e', '\x22', ':', '\x22', 'O', 'P', 'E', 'N', '\x22', ',',
   '\x22', 'x', '\x22', ':', '2', '.', '5', ',', '\x22', 'y', '\x22', ':', '-', '3', '\x7d']

/-- Result of `JSON.parse` on `exMatch`. -/
def exJson : Json :=
  Json.obj [(stateKey, Json.str openChars), (xKey, Json.num (5 / 2)), (yKey, Json.num (-3))]

/-- The spec's other worked example: an object with only a state field. -/
def exNoX : List Char :=
  ['\x7b', '\x22', 's', 't', 'a', 't', 'e', '\x22', ':', '\x22', 'O', 'P', 'E', 'N', '\x22', '\x7d']

/-- Result of `JSON.parse` on `exNoX`. -/
def exNoXJson : Json := Json.obj [(stateKey, Json.str openChars)]

/-- An object carrying state and x but no y. -/
def exMissingY : List Char :=
  ['\x7b', '\x22', 's', 't', 'a', 't', 'e', '\x22', ':', '\x22', 'O', 'P', 'E', 'N', '\x22', ',',
   '\x22', 'x', '\x22', ':', '0', '\x7d']

/-- An object whose state string is UNKNOWN. -/
def exUnknown : List Char :=
  ['\x7b', '\x22', 's', 't', 'a', 't', 'e', '\x22', ':', '\x22', 'U', 'N', 'K', 'N', 'O', 'W', 'N', '\x22', ',',
   '\x22', 'x', '\x22', ':', '0', ',', '\x22', 'y', '\x22', ':', '0', '\x7d']

/-- Result of parsing `exUnknown` (the regex matches the whole literal). -/
def exUnknownJson : Json :=
  Json.obj [(stateKey, Json.str unknownChars), (xKey, Json.num 0), (yKey, Json.num 0)]

-- ======================================================================
-- Helper lemmas
-- ======================================================================

theorem lerp_nonneg_le_one {p T t : ℚ} (hp0 : 0 ≤ p) (hp1 : p ≤ 1)
    (hT0 : 0 ≤ T) (hT1 : T ≤ 1) (ht0 : 0 ≤ t) (ht1 : t ≤ 1) :
    0 ≤ lerp p T t ∧ lerp p T t ≤ 1 := by
  unfold lerp
  constructor <;> nlinarith

theorem lerp_between_le {p T t : ℚ} (hpT : p ≤ T) (ht0 : 0 ≤ t) (ht1 : t ≤ 1) :
    p ≤ lerp p T t ∧ lerp p T t ≤ T := by
  unfold lerp
  constructor <;> nlinarith

theorem lerp_between_ge {p T t : ℚ} (hpT : T ≤ p) (ht0 : 0 ≤ t) (ht1 : t ≤ 1) :
    T ≤ lerp p T t ∧ lerp p T t ≤ p := by
  unfold lerp
  constructor <;> nlinarith

theorem lerp_sub (p T t : ℚ) : T - lerp p T t = (1 - t) * (T - p) := by
  unfold lerp
  ring

theorem lerpFold_dist (T : ℚ) (ts : List ℚ) (p : ℚ) :
    T - lerpFold T ts p = (ts.map (fun t => 1 - t)).prod * (T - p) := by
  induction ts generalizing p with
  | nil => simp [lerpFold]
  | cons t ts ih =>
    have h1 : lerpFold T (t :: ts) p = lerpFold T ts (lerp p T t) := rfl
    rw [h1, ih, List.map_cons, List.prod_cons, lerp_sub]
    ring

theorem head_scanl (f : ℚ → ℚ → ℚ) (b : ℚ) (l : List ℚ) :
    (List.scanl f b l).head? = some b := by
  cases l <;> rfl

theorem chain_le_scanl (T : ℚ) (ts : List ℚ) (p : ℚ) (hpT : p ≤ T)
    (h : ∀ t ∈ ts, 0 ≤ t ∧ t ≤ 1) :
    List.Chain' (fun a b => a ≤ b) (List.scanl (fun q t => lerp q T t) p ts) := by
  induction ts generalizing p with
  | nil => simp
  | cons t ts ih =>
    have ht := h t (List.mem_cons_self t ts)
    have hb := lerp_between_le hpT ht.1 ht.2
    have hscan : List.scanl (fun q t => lerp q T t) p (t :: ts)
        = p :: List.scanl (fun q t => lerp q T t) (lerp p T t) ts := rfl
    rw [hscan]
    refine List.chain'_cons'.mpr ⟨?_, ih (lerp p T t) hb.2 (fun u hu => h u (List.mem_cons_of_mem t hu))⟩
    intro y hy
    rw [head_scanl, Option.mem_some_iff] at hy
    exact hy ▸ hb.1

theorem chain_ge_scanl (T : ℚ) (ts : List ℚ) (p : ℚ) (hpT : T ≤ p)
    (h : ∀ t ∈ ts, 0 ≤ t ∧ t ≤ 1) :
    List.Chain' (fun a b => b ≤ a) (List.scanl (fun q t => lerp q T t) p ts) := by
  induction ts generalizing p with
  | nil => simp
  | cons t ts ih =>
    have ht := h t (List.mem_cons_self t ts)
    have hb := lerp_between_ge hpT ht.1 ht.2
    have hscan : List.scanl (fun q t => lerp q T t) p (t :: ts)
        = p :: List.scanl (fun q t => lerp q T t) (lerp p T t) ts := rfl
    rw [hscan]
    refine List.chain'_cons'.mpr ⟨?_, ih (lerp p T t) hb.1 (fun u hu => h u (List.mem_cons_of_mem t hu))⟩
    intro y hy
    rw [head_scanl, Option.mem_some_iff] at hy
    exact hy ▸ hb.2

theorem scanl_map_held {α β : Type} (g : α → β) (f : ℚ → β → ℚ) (p : ℚ) (l : List α) :
    List.scanl f p (l.map g) = List.scanl (fun q a => f q (g a)) p l := by
  induction l generalizing p with
  | nil => rfl
  | cons a l ih =>
    show p :: List.scanl f (f p (g a)) (l.map g) = p :: List.scanl (fun q a => f q (g a)) (f p (g a)) l
    rw [ih]

theorem foliageRun_held (s : HandState) (ds : List ℚ) (p : ℚ) :
    foliageRun (heldFrames s ds) p
      = lerpFold (foliageTarget s) (ds.map fun d => d * foliageSpeed s) p := by
  unfold foliageRun heldFrames lerpFold
  rw [List.foldl_map, List.foldl_map]
  rfl

theorem decorRun_held (w : ℚ) (s : HandState) (ds : List ℚ) (p : ℚ) :
    decorRun w (heldFrames s ds) p
      = lerpFold (decorTarget s) (ds.map fun d => d * (decorSpeed s / w)) p := by
  unfold decorRun heldFrames lerpFold
  rw [List.foldl_map, List.foldl_map]
  rfl

theorem foliageTraj_held (s : HandState) (ds : List ℚ) (p : ℚ) :
    foliageTraj (heldFrames s ds) p
      = List.scanl (fun q t => lerp q (foliageTarget s) t) p (ds.map fun d => d * foliageSpeed s) := by
  unfold foliageTraj heldFrames
  rw [scanl_map_held, scanl_map_held]
  rfl

theorem decorTraj_held (w : ℚ) (s : HandState) (ds : List ℚ) (p : ℚ) :
    decorTraj w (heldFrames s ds) p
      = List.scanl (fun q t => lerp q (decorTarget s) t) p (ds.map fun d => d * (decorSpeed s / w)) := by
  unfold decorTraj heldFrames
  rw [scanl_map_held, scanl_map_held]
  rfl

theorem foliageRun_mem_unit (frames : List (HandState × ℚ)) (p : ℚ)
    (hp0 : 0 ≤ p) (hp1 : p ≤ 1)
    (hf : ∀ f ∈ frames, 0 ≤ f.2 ∧ f.2 * foliageSpeed f.1 ≤ 1) :
    0 ≤ foliageRun frames p ∧ foliageRun frames p ≤ 1 := by
  induction frames generalizing p with
  | nil => exact ⟨hp0, hp1⟩
  | cons f fs ih =>
    have hf0 := hf f (List.mem_cons_self f fs)
    have hT : (0 : ℚ) ≤ foliageTarget f.1 ∧ foliageTarget f.1 ≤ 1 := by
      unfold foliageTarget
      split <;> norm_num
    have hsp : (0 : ℚ) ≤ foliageSpeed f.1 := by
      unfold foliageSpeed
      split <;> norm_num
    have hstep := lerp_nonneg_le_one hp0 hp1 hT.1 hT.2 (mul_nonneg hf0.1 hsp) hf0.2
    exact ih (foliageStep f.1 f.2 p) hstep.1 hstep.2 (fun u hu => hf u (List.mem_cons_of_mem f hu))

theorem decorRun_mem_unit (w : ℚ) (frames : List (HandState × ℚ)) (p : ℚ)
    (hw : 0 < w) (hp0 : 0 ≤ p) (hp1 : p ≤ 1)
    (hf : ∀ f ∈ frames, 0 ≤ f.2 ∧ f.2 * (decorSpeed f.1 / w) ≤ 1) :
    0 ≤ decorRun w frames p ∧ decorRun w frames p ≤ 1 := by
  induction frames generalizing p with
  | nil => exact ⟨hp0, hp1⟩
  | cons f fs ih =>
    have hf0 := hf f (List.mem_cons_self f fs)
    have hT : (0 : ℚ) ≤ decorTarget f.1 ∧ decorTarget f.1 ≤ 1 := by
      unfold decorTarget
      split <;> norm_num
    have hsp : (0 : ℚ) ≤ decorSpeed f.1 / w := by
      apply div_nonneg _ (le_of_lt hw)
      unfold decorSpeed
      split <;> norm_num
    have hstep := lerp_nonneg_le_one hp0 hp1 hT.1 hT.2 (mul_nonneg hf0.1 hsp) hf0.2
    exact ih (decorStep w f.1 f.2 p) hstep.1 hstep.2 (fun u hu => hf u (List.mem_cons_of_mem f hu))

theorem foliageTarget_OPEN : foliageTarget HandState.OPEN = 0 := rfl

theorem foliageTarget_CLOSED : foliageTarget HandState.CLOSED = 1 := rfl

theorem foliageTarget_UNKNOWN : foliageTarget HandState.UNKNOWN = 1 := rfl

theorem foliageSpeed_OPEN : foliageSpeed HandState.OPEN = 5 / 2 := rfl

theorem foliageSpeed_CLOSED : foliageSpeed HandState.CLOSED = 1 := rfl

theorem foliageSpeed_UNKNOWN : foliageSpeed HandState.UNKNOWN = 1 := rfl

theorem decorTarget_OPEN : decorTarget HandState.OPEN = 0 := rfl

theorem decorTarget_CLOSED : decorTarget HandState.CLOSED = 1 := rfl

theorem decorTarget_UNKNOWN : decorTarget HandState.UNKNOWN = 1 := rfl

theorem decorSpeed_OPEN : decorSpeed HandState.OPEN = 3 := rfl

theorem decorSpeed_CLOSED : decorSpeed HandState.CLOSED = 3 / 2 := rfl

theorem decorSpeed_UNKNOWN : decorSpeed HandState.UNKNOWN = 3 / 2 := rfl

/-- Strict comparison of products of per-frame decay factors: if every
factor for the faster entity is nonnegative and strictly below the slower
entity's factor, which itself stays at most 1, the faster entity's product
is strictly smaller. -/
theorem map_prod_lt (ds : List ℚ) (f g : ℚ → ℚ) (hne : ds ≠ [])
    (h : ∀ d ∈ ds, 0 ≤ f d ∧ f d < g d ∧ g d ≤ 1) :
    0 ≤ (ds.map f).prod ∧ (ds.map f).prod < (ds.map g).prod ∧
      0 < (ds.map g).prod ∧ (ds.map g).prod ≤ 1 := by
  induction ds with
  | nil => exact absurd rfl hne
  | cons d ds ih =>
    have hd := h d (List.mem_cons_self d ds)
    cases ds with
    | nil =>
      simp only [List.map_cons, List.map_nil, List.prod_cons, List.prod_nil, mul_one]
      exact ⟨hd.1, hd.2.1, lt_of_le_of_lt hd.1 hd.2.1, hd.2.2⟩
    | cons d2 ds2 =>
      have ihh := ih (by simp) (fun u hu => h u (List.mem_cons_of_mem d hu))
      simp only [List.map_cons, List.prod_cons] at ihh ⊢
      obtain ⟨hf0, hflt, hg0, hg1⟩ := ihh
      refine ⟨mul_nonneg hd.1 hf0, ?_, mul_pos (lt_of_le_of_lt hd.1 hd.2.1) hg0, ?_⟩
      · calc f d * (f d2 * (List.map f ds2).prod)
            ≤ f d * (g d2 * (List.map g ds2).prod) :=
              mul_le_mul_of_nonneg_left (le_of_lt hflt) hd.1
          _ < g d * (g d2 * (List.map g ds2).prod) :=
              mul_lt_mul_of_pos_right hd.2.1 hg0
      · exact mul_le_one₀ hd.2.2 (le_of_lt hg0) hg1

/-- The split returned by `lastCloseSplit` really is at a closing brace. -/
theorem lastCloseSplit_eq (l : List Char) (a b : List Char)
    (h : lastCloseSplit l = some (a, b)) : l = a ++ '\x7d' :: b := by
  induction l generalizing a b with
  | nil => simp [lastCloseSplit] at h
  | cons c rest ih =>
    simp only [lastCloseSplit] at h
    cases hr : lastCloseSplit rest with
    | some p =>
      obtain ⟨a0, b0⟩ := p
      rw [hr] at h
      simp only [Option.some.injEq, Prod.mk.injEq] at h
      obtain ⟨rfl, rfl⟩ := h
      simp [ih a0 b0 hr]
    | none =>
      rw [hr] at h
      by_cases hc : c == '\x7d'
      · rw [if_pos hc] at h
        simp only [Option.some.injEq, Prod.mk.injEq] at h
        obtain ⟨rfl, rfl⟩ := h
        have hc' : c = '\x7d' := by simpa using hc
        simp [hc']
      · rw [if_neg hc] at h
        exact absurd h (by simp)

/-- A successful regex match certifies a brace-delimited substring. -/
theorem jsMatchBrace_some_split (text m : List Char)
    (h : jsMatchBrace text = some m) :
    ∃ pre mid post, text = pre ++ '\x7b' :: mid ++ '\x7d' :: post := by
  induction text generalizing m with
  | nil => simp [jsMatchBrace] at h
  | cons c rest ih =>
    simp only [jsMatchBrace] at h
    by_cases hc : c == '\x7b'
    · rw [if_pos hc] at h
      have hc' : c = '\x7b' := by simpa using hc
      cases hsp : lastCloseSplit (takeLine rest) with
      | some p =>
        obtain ⟨a0, b0⟩ := p
        have hline : takeLine rest = a0 ++ '\x7d' :: b0 := lastCloseSplit_eq _ _ _ hsp
        have hrest : (a0 ++ '\x7d' :: b0) ++ rest.dropWhile (fun c => !lineTerm c) = rest := by
          rw [← hline]
          exact List.takeWhile_append_dropWhile (fun c => !lineTerm c) rest
        refine ⟨[], a0, b0 ++ rest.dropWhile (fun c => !lineTerm c), ?_⟩
        rw [List.nil_append, hc']
        nth_rewrite 1 [← hrest]
        simp [List.append_assoc]
      | none =>
        simp only [hsp] at h
        obtain ⟨pre, mid, post, hsplit⟩ := ih _ h
        exact ⟨c :: pre, mid, post, by rw [hsplit]; rfl⟩
    · rw [if_neg hc] at h
      obtain ⟨pre, mid, post, hsplit⟩ := ih _ h
      exact ⟨c :: pre, mid, post, by rw [hsplit]; rfl⟩

-- ======================================================================
-- Claim theorems
-- ======================================================================

/-- C6: on every rendered frame the desired target progress is 1 (formed)
when the signal state is CLOSED or UNKNOWN and 0 (chaos) when it is OPEN,
in both the foliage system and the instanced decor. -/
theorem target_progress_matches_state :
    foliageTarget HandState.CLOSED = 1 ∧ foliageTarget HandState.UNKNOWN = 1 ∧
    foliageTarget HandState.OPEN = 0 ∧
    decorTarget HandState.CLOSED = 1 ∧ decorTarget HandState.UNKNOWN = 1 ∧
    decorTarget HandState.OPEN = 0 := by
  refine ⟨?_, ?_, ?_, ?_, ?_, ?_⟩ <;> rfl

/-- C7: for every chaos position, target position and progress value t, the
blended position — in the foliage vertex shader (GLSL mix) and in the
instanced decor (three.js lerpVectors) alike — is the linear interpolation
from chaos to target with coefficient 1 - (1 - t)^3, the cubic ease-out of
t; in particular both blends agree. -/
theorem blended_position_is_cubic_ease_lerp :
    ∀ (c g : Vec3) (t : ℚ),
      shaderBlendPos c g t = specLerpPos c g (1 - (1 - t) ^ 3) ∧
      decorBlendPos c g t = specLerpPos c g (1 - (1 - t) ^ 3) ∧
      shaderBlendPos c g t = decorBlendPos c g t := by
  intro c g t
  refine ⟨?_, ?_, ?_⟩ <;>
    · ext <;>
        simp [shaderBlendPos, decorBlendPos, specLerpPos, glslMix, lerpVectors, easeOut] <;>
        ring

/-- C9: a tick of the frame-capture interval with no session promise
performs no frame submission, whatever the canvas context and video
dimensions; the guard returns before any fallible operation, so the tick
raises nothing. -/
theorem video_tick_skipped_without_session :
    ∀ (ctx : Option Unit) (videoWidth videoHeight : ℚ),
      videoTick none ctx videoWidth videoHeight = TickResult.skipped := by
  intro ctx w h
  rfl

/-- C8 counterexample: the camera x update is NOT a frame-time-scaled
interpolation — no rate s makes the step equal lerp toward the target with
coefficient delta * s for all frame times delta (the code uses the constant
0.05 with no delta): instantiating delta = 0 at signal x = 1 and camera
x = 0 forces the step to be 0, but it is -1/4. -/
theorem camera_step_not_frame_time_scaled :
    ¬ ∃ s : ℚ, ∀ (delta px : ℚ), cameraStepX 1 px = lerp px (cameraTargetX 1) (delta * s) := by
  rintro ⟨s, hs⟩
  have h0 := hs 0 0
  rw [zero_mul] at h0
  norm_num [cameraStepX, cameraTargetX, cameraBaseX, lerp] at h0

/-- C8 (amended): the camera target is the linear function
targetX = 0 - 5·x, targetY = 4 + 3·y of the signal, and each frame the
camera position moves toward it by the constant fraction 0.05 — exponential
approach with per-frame factor 19/20, independent of frame time and of any
entity weight. -/
theorem camera_linear_target_fixed_coefficient :
    ∀ (hx hy px py : ℚ),
      cameraTargetX hx = 0 - 5 * hx ∧
      cameraTargetY hy = 4 + 3 * hy ∧
      cameraStepX hx px = px + (1 / 20) * (cameraTargetX hx - px) ∧
      cameraStepY hy py = py + (1 / 20) * (cameraTargetY hy - py) ∧
      cameraTargetX hx - cameraStepX hx px = (19 / 20) * (cameraTargetX hx - px) ∧
      cameraTargetY hy - cameraStepY hy py = (19 / 20) * (cameraTargetY hy - py) := by
  intro hx hy px py
  refine ⟨?_, ?_, ?_, ?_, ?_, ?_⟩ <;>
    simp [cameraTargetX, cameraTargetY, cameraStepX, cameraStepY,
      cameraBaseX, cameraBaseY, lerp] <;>
    ring

/-- C1 counterexample: progress does NOT stay within [0,1] for arbitrary
elapsed times — one OPEN frame with delta = 1 s (rate 2.5) drives the
foliage progress from its initial value 1 to -3/2, which is below 0. -/
theorem foliage_progress_escapes_unit_interval :
    foliageRun [(HandState.OPEN, 1)] 1 = -(3 / 2) ∧
    foliageRun [(HandState.OPEN, 1)] 1 < 0 := by
  have h : foliageRun [(HandState.OPEN, 1)] 1 = -(3 / 2) := by with_unfolding_all rfl
  exact ⟨h, by rw [h]; norm_num⟩

/-- C1 (amended): for every frame sequence — any oscillation of the signal —
progress stays within [0,1] provided every frame's elapsed time is
nonnegative and its effective interpolation rate (delta·speed for the
foliage, delta·speed/weight for decor) is at most 1; both the foliage and
any positive-weight decor entity are covered. -/
theorem progress_within_unit_interval_of_bounded_rates
    (frames : List (HandState × ℚ)) (w p q : ℚ) (hw : 0 < w)
    (hp0 : 0 ≤ p) (hp1 : p ≤ 1) (hq0 : 0 ≤ q) (hq1 : q ≤ 1)
    (hf : ∀ f ∈ frames, 0 ≤ f.2 ∧ f.2 * foliageSpeed f.1 ≤ 1 ∧
          f.2 * (decorSpeed f.1 / w) ≤ 1) :
    (0 ≤ foliageRun frames p ∧ foliageRun frames p ≤ 1) ∧
    (0 ≤ decorRun w frames q ∧ decorRun w frames q ≤ 1) :=
  ⟨foliageRun_mem_unit frames p hp0 hp1 (fun f hf' => ⟨(hf f hf').1, (hf f hf').2.1⟩),
   decorRun_mem_unit w frames q hw hq0 hq1 (fun f hf' => ⟨(hf f hf').1, (hf f hf').2.2⟩)⟩

theorem progress_within_unit_interval_witness :
    (∀ f ∈ [(HandState.OPEN, (1 : ℚ) / 10), (HandState.CLOSED, 1 / 5)],
        0 ≤ f.2 ∧ f.2 * foliageSpeed f.1 ≤ 1 ∧ f.2 * (decorSpeed f.1 / (9 / 5)) ≤ 1) ∧
    ((0 ≤ foliageRun [(HandState.OPEN, 1 / 10), (HandState.CLOSED, 1 / 5)] 1 ∧
        foliageRun [(HandState.OPEN, 1 / 10), (HandState.CLOSED, 1 / 5)] 1 ≤ 1) ∧
     (0 ≤ decorRun (9 / 5) [(HandState.OPEN, 1 / 10), (HandState.CLOSED, 1 / 5)] 1 ∧
        decorRun (9 / 5) [(HandState.OPEN, 1 / 10), (HandState.CLOSED, 1 / 5)] 1 ≤ 1)) :=
  ⟨by norm_num [List.forall_mem_cons, foliageSpeed_OPEN, foliageSpeed_CLOSED, decorSpeed_OPEN, decorSpeed_CLOSED],
   progress_within_unit_interval_of_bounded_rates _ _ _ _ (by norm_num)
     (by norm_num) (by norm_num) (by norm_num) (by norm_num)
     (by norm_num [List.forall_mem_cons, foliageSpeed_OPEN, foliageSpeed_CLOSED, decorSpeed_OPEN, decorSpeed_CLOSED])⟩

/-- C4 counterexample: under a held CLOSED signal the progress is NOT
monotonically non-decreasing for arbitrary elapsed times — two CLOSED
frames with delta = 3 s from progress 0 give the trajectory 0, 3, -3,
which decreases on its second step. -/
theorem held_closed_progress_not_monotone :
    foliageTraj (heldFrames HandState.CLOSED [3, 3]) 0 = [0, 3, -3] ∧
    ¬ List.Chain' (fun a b => a ≤ b) (foliageTraj (heldFrames HandState.CLOSED [3, 3]) 0) := by
  have h : foliageTraj (heldFrames HandState.CLOSED [3, 3]) 0 = [0, 3, -3] := by
    with_unfolding_all rfl
  refine ⟨h, ?_⟩
  rw [h]
  norm_num [List.chain'_cons]

/-- C4 (amended): under a held CLOSED signal — with each frame's elapsed
time nonnegative and its effective rate at most 1 — the progress of the
foliage and of any positive-weight decor entity is monotonically
non-decreasing and approaches 1 exponentially: the remaining distance to 1
after the frames is exactly the product of the per-frame factors
(1 - delta·rate) times the initial distance.  Dually, under a held OPEN
signal the progress is monotonically non-increasing and approaches 0, the
remaining distance obeying the same product law. -/
theorem held_signal_progress_monotone_of_bounded_rates
    (ds : List ℚ) (p w : ℚ) (hw : 0 < w) (hp0 : 0 ≤ p) (hp1 : p ≤ 1)
    (hd : ∀ d ∈ ds, 0 ≤ d ∧ d * foliageSpeed HandState.CLOSED ≤ 1 ∧
          d * foliageSpeed HandState.OPEN ≤ 1 ∧
          d * (decorSpeed HandState.CLOSED / w) ≤ 1 ∧
          d * (decorSpeed HandState.OPEN / w) ≤ 1) :
    (List.Chain' (fun a b => a ≤ b) (foliageTraj (heldFrames HandState.CLOSED ds) p) ∧
      1 - foliageRun (heldFrames HandState.CLOSED ds) p
        = (ds.map fun d => 1 - d * foliageSpeed HandState.CLOSED).prod * (1 - p)) ∧
    (List.Chain' (fun a b => b ≤ a) (foliageTraj (heldFrames HandState.OPEN ds) p) ∧
      foliageRun (heldFrames HandState.OPEN ds) p
        = (ds.map fun d => 1 - d * foliageSpeed HandState.OPEN).prod * p) ∧
    (List.Chain' (fun a b => a ≤ b) (decorTraj w (heldFrames HandState.CLOSED ds) p) ∧
      1 - decorRun w (heldFrames HandState.CLOSED ds) p
        = (ds.map fun d => 1 - d * (decorSpeed HandState.CLOSED / w)).prod * (1 - p)) ∧
    (List.Chain' (fun a b => b ≤ a) (decorTraj w (heldFrames HandState.OPEN ds) p) ∧
      decorRun w (heldFrames HandState.OPEN ds) p
        = (ds.map fun d => 1 - d * (decorSpeed HandState.OPEN / w)).prod * p) := by
  have hfc : (0 : ℚ) ≤ foliageSpeed HandState.CLOSED := by norm_num [foliageSpeed_CLOSED]
  have hfo : (0 : ℚ) ≤ foliageSpeed HandState.OPEN := by norm_num [foliageSpeed_OPEN]
  have hdc : (0 : ℚ) ≤ decorSpeed HandState.CLOSED / w := by
    exact div_nonneg (by norm_num [decorSpeed_CLOSED]) hw.le
  have hdo : (0 : ℚ) ≤ decorSpeed HandState.OPEN / w := by
    exact div_nonneg (by norm_num [decorSpeed_OPEN]) hw.le
  refine ⟨⟨?_, ?_⟩, ⟨?_, ?_⟩, ⟨?_, ?_⟩, ⟨?_, ?_⟩⟩
  · rw [foliageTraj_held]
    apply chain_le_scanl _ _ _ (by rw [foliageTarget_CLOSED]; exact hp1)
    intro t ht
    obtain ⟨d, hdm, rfl⟩ := List.mem_map.mp ht
    exact ⟨mul_nonneg (hd d hdm).1 hfc, (hd d hdm).2.1⟩
  · rw [foliageRun_held]
    have h := lerpFold_dist (foliageTarget HandState.CLOSED)
      (ds.map fun d => d * foliageSpeed HandState.CLOSED) p
    rw [List.map_map, foliageTarget_CLOSED] at h
    exact h
  · rw [foliageTraj_held]
    apply chain_ge_scanl _ _ _ (by rw [foliageTarget_OPEN]; exact hp0)
    intro t ht
    obtain ⟨d, hdm, rfl⟩ := List.mem_map.mp ht
    exact ⟨mul_nonneg (hd d hdm).1 hfo, (hd d hdm).2.2.1⟩
  · rw [foliageRun_held]
    have h := lerpFold_dist (foliageTarget HandState.OPEN)
      (ds.map fun d => d * foliageSpeed HandState.OPEN) p
    rw [List.map_map, foliageTarget_OPEN, zero_sub, zero_sub, mul_neg, neg_inj] at h
    exact h
  · rw [decorTraj_held]
    apply chain_le_scanl _ _ _ (by rw [decorTarget_CLOSED]; exact hp1)
    intro t ht
    obtain ⟨d, hdm, rfl⟩ := List.mem_map.mp ht
    exact ⟨mul_nonneg (hd d hdm).1 hdc, (hd d hdm).2.2.2.1⟩
  · rw [decorRun_held]
    have h := lerpFold_dist (decorTarget HandState.CLOSED)
      (ds.map fun d => d * (decorSpeed HandState.CLOSED / w)) p
    rw [List.map_map, decorTarget_CLOSED] at h
    exact h
  · rw [decorTraj_held]
    apply chain_ge_scanl _ _ _ (by rw [decorTarget_OPEN]; exact hp0)
    intro t ht
    obtain ⟨d, hdm, rfl⟩ := List.mem_map.mp ht
    exact ⟨mul_nonneg (hd d hdm).1 hdo, (hd d hdm).2.2.2.2⟩
  · rw [decorRun_held]
    have h := lerpFold_dist (decorTarget HandState.OPEN)
      (ds.map fun d => d * (decorSpeed HandState.OPEN / w)) p
    rw [List.map_map, decorTarget_OPEN, zero_sub, zero_sub, mul_neg, neg_inj] at h
    exact h

theorem held_signal_progress_monotone_witness :
    (∀ d ∈ [(1 : ℚ) / 10, 1 / 5], 0 ≤ d ∧ d * foliageSpeed HandState.CLOSED ≤ 1 ∧
        d * foliageSpeed HandState.OPEN ≤ 1 ∧
        d * (decorSpeed HandState.CLOSED / (9 / 5)) ≤ 1 ∧
        d * (decorSpeed HandState.OPEN / (9 / 5)) ≤ 1) ∧
    ((List.Chain' (fun a b => a ≤ b)
        (foliageTraj (heldFrames HandState.CLOSED [(1 : ℚ) / 10, 1 / 5]) (1 / 2)) ∧
      1 - foliageRun (heldFrames HandState.CLOSED [(1 : ℚ) / 10, 1 / 5]) (1 / 2)
        = ([(1 : ℚ) / 10, 1 / 5].map fun d => 1 - d * foliageSpeed HandState.CLOSED).prod * (1 - 1 / 2)) ∧
    (List.Chain' (fun a b => b ≤ a)
        (foliageTraj (heldFrames HandState.OPEN [(1 : ℚ) / 10, 1 / 5]) (1 / 2)) ∧
      foliageRun (heldFrames HandState.OPEN [(1 : ℚ) / 10, 1 / 5]) (1 / 2)
        = ([(1 : ℚ) / 10, 1 / 5].map fun d => 1 - d * foliageSpeed HandState.OPEN).prod * (1 / 2)) ∧
    (List.Chain' (fun a b => a ≤ b)
        (decorTraj (9 / 5) (heldFrames HandState.CLOSED [(1 : ℚ) / 10, 1 / 5]) (1 / 2)) ∧
      1 - decorRun (9 / 5) (heldFrames HandState.CLOSED [(1 : ℚ) / 10, 1 / 5]) (1 / 2)
        = ([(1 : ℚ) / 10, 1 / 5].map fun d => 1 - d * (decorSpeed HandState.CLOSED / (9 / 5))).prod * (1 - 1 / 2)) ∧
    (List.Chain' (fun a b => b ≤ a)
        (decorTraj (9 / 5) (heldFrames HandState.OPEN [(1 : ℚ) / 10, 1 / 5]) (1 / 2)) ∧
      decorRun (9 / 5) (heldFrames HandState.OPEN [(1 : ℚ) / 10, 1 / 5]) (1 / 2)
        = ([(1 : ℚ) / 10, 1 / 5].map fun d => 1 - d * (decorSpeed HandState.OPEN / (9 / 5))).prod * (1 / 2))) :=
  ⟨by norm_num [List.forall_mem_cons, foliageSpeed_OPEN, foliageSpeed_CLOSED, decorSpeed_OPEN, decorSpeed_CLOSED],
   held_signal_progress_monotone_of_bounded_rates [(1 : ℚ) / 10, 1 / 5] (1 / 2) (9 / 5)
     (by norm_num) (by norm_num) (by norm_num)
     (by norm_num [List.forall_mem_cons, foliageSpeed_OPEN, foliageSpeed_CLOSED, decorSpeed_OPEN, decorSpeed_CLOSED])⟩

/-- C5 counterexample: with identical signal history CLOSED then OPEN
(fixed delta = 1/10 s), equal initial progress 0, the weight-9/5 entity ends
at distance 5/72 from the target 0 while the weight-4/5 entity ends at
distance 15/128 — the strictly heavier entity is strictly CLOSER to the
target after the second frame, not farther. -/
theorem heavier_entity_not_strictly_farther :
    decorRun (9 / 5) [(HandState.CLOSED, 1 / 10), (HandState.OPEN, 1 / 10)] 0 = 5 / 72 ∧
    decorRun (4 / 5) [(HandState.CLOSED, 1 / 10), (HandState.OPEN, 1 / 10)] 0 = 15 / 128 ∧
    |decorTarget HandState.OPEN - decorRun (9 / 5) [(HandState.CLOSED, 1 / 10), (HandState.OPEN, 1 / 10)] 0|
      < |decorTarget HandState.OPEN - decorRun (4 / 5) [(HandState.CLOSED, 1 / 10), (HandState.OPEN, 1 / 10)] 0| := by
  have h1 : decorRun (9 / 5) [(HandState.CLOSED, 1 / 10), (HandState.OPEN, 1 / 10)] 0 = 5 / 72 := by
    with_unfolding_all rfl
  have h2 : decorRun (4 / 5) [(HandState.CLOSED, 1 / 10), (HandState.OPEN, 1 / 10)] 0 = 15 / 128 := by
    with_unfolding_all rfl
  refine ⟨h1, h2, ?_⟩
  rw [decorTarget_OPEN, h1, h2, zero_sub, zero_sub, abs_neg, abs_neg,
    abs_of_nonneg (by norm_num : (0 : ℚ) ≤ 5 / 72),
    abs_of_nonneg (by norm_num : (0 : ℚ) ≤ 15 / 128)]
  norm_num

/-- C5 (amended): under a HELD signal with positive frame times whose
effective rate for the lighter entity stays at most 1, two decor entities
with equal initial progress not already at the target obey: after each
frame (every nonempty prefix of the frame list) the strictly heavier entity
is strictly farther from the target progress.  (With a signal that
switches, as in the spec's CLOSED,CLOSED,OPEN,OPEN example, the ordering
can tie at the target or even reverse, per the counterexample.) -/
theorem heavier_entity_farther_under_held_signal
    (s : HandState) (ds : List ℚ) (p wl wh : ℚ) (n : ℕ)
    (hwl : 0 < wl) (hlh : wl < wh) (hp : p ≠ decorTarget s)
    (hd : ∀ d ∈ ds, 0 < d ∧ d * (decorSpeed s / wl) ≤ 1)
    (hn : 0 < n) (hnl : n ≤ ds.length) :
    |decorTarget s - decorRun wl (heldFrames s (ds.take n)) p|
      < |decorTarget s - decorRun wh (heldFrames s (ds.take n)) p| := by
  have hwh : 0 < wh := lt_trans hwl hlh
  have hS : 0 < decorSpeed s := by
    cases s <;> norm_num [decorSpeed_OPEN, decorSpeed_CLOSED, decorSpeed_UNKNOWN]
  have htsne : ds.take n ≠ [] := by
    intro hnil
    have hlen := congrArg List.length hnil
    rw [List.length_take, min_eq_left hnl] at hlen
    simp at hlen
    omega
  have hsub : ∀ d ∈ ds.take n, d ∈ ds := fun d hmem => List.take_subset n ds hmem
  have hfac : ∀ d ∈ ds.take n,
      0 ≤ ((fun t => 1 - t) ∘ fun d => d * (decorSpeed s / wl)) d ∧
      ((fun t => 1 - t) ∘ fun d => d * (decorSpeed s / wl)) d
        < ((fun t => 1 - t) ∘ fun d => d * (decorSpeed s / wh)) d ∧
      ((fun t => 1 - t) ∘ fun d => d * (decorSpeed s / wh)) d ≤ 1 := by
    intro d hmem
    obtain ⟨hd0, hd1⟩ := hd d (hsub d hmem)
    have hdiv : decorSpeed s / wh < decorSpeed s / wl := div_lt_div_of_pos_left hS hwl hlh
    have hmul := mul_lt_mul_of_pos_left hdiv hd0
    have hnn : 0 ≤ d * (decorSpeed s / wh) := mul_nonneg hd0.le (div_nonneg hS.le hwh.le)
    refine ⟨by simpa using by linarith, by simpa using by linarith, by simpa using by linarith⟩
  have hprod := map_prod_lt (ds.take n)
    ((fun t => 1 - t) ∘ fun d => d * (decorSpeed s / wl))
    ((fun t => 1 - t) ∘ fun d => d * (decorSpeed s / wh)) htsne hfac
  have hl := lerpFold_dist (decorTarget s) ((ds.take n).map fun d => d * (decorSpeed s / wl)) p
  have hh := lerpFold_dist (decorTarget s) ((ds.take n).map fun d => d * (decorSpeed s / wh)) p
  rw [List.map_map] at hl hh
  rw [decorRun_held, decorRun_held, hl, hh, abs_mul, abs_mul]
  have hTp : 0 < |decorTarget s - p| := abs_pos.mpr (sub_ne_zero.mpr (Ne.symm hp))
  apply mul_lt_mul_of_pos_right _ hTp
  rw [abs_of_nonneg hprod.1, abs_of_nonneg hprod.2.2.1.le]
  exact hprod.2.1

theorem heavier_entity_farther_witness :
    ((0 : ℚ) < 4 / 5 ∧ (4 : ℚ) / 5 < 9 / 5 ∧ (1 : ℚ) ≠ decorTarget HandState.OPEN ∧
      (∀ d ∈ [(1 : ℚ) / 10], 0 < d ∧ d * (decorSpeed HandState.OPEN / (4 / 5)) ≤ 1)) ∧
    |decorTarget HandState.OPEN - decorRun (4 / 5) (heldFrames HandState.OPEN ([(1 : ℚ) / 10].take 1)) 1|
      < |decorTarget HandState.OPEN - decorRun (9 / 5) (heldFrames HandState.OPEN ([(1 : ℚ) / 10].take 1)) 1| :=
  ⟨⟨by norm_num, by norm_num, by norm_num [decorTarget_OPEN],
    by norm_num [List.forall_mem_cons, decorSpeed_OPEN]⟩,
   heavier_entity_farther_under_held_signal HandState.OPEN [(1 : ℚ) / 10] 1 (4 / 5) (9 / 5) 1
     (by norm_num) (by norm_num) (by norm_num [decorTarget_OPEN])
     (by norm_num [List.forall_mem_cons, decorSpeed_OPEN]) (by norm_num) (by norm_num)⟩

/-- C2: whenever the regex finds a brace-delimited substring that parses as
JSON carrying a valid state string (OPEN or CLOSED) and numeric x and y,
the parser publishes exactly one signal: x and y are clamped into [-1,1] by
max(-1, min(1, ·)) and the state string is mapped to its enumerated value. -/
theorem valid_fragment_publishes_clamped_signal
    (text m : List Char) (j : Json) (st : List Char) (qx qy : ℚ)
    (hm : jsMatchBrace text = some m)
    (hj : jsonParse m = some j)
    (hst : jsGet j stateKey = some (Json.str st))
    (hvalid : st = openChars ∨ st = closedChars)
    (hx : jsGet j xKey = some (Json.num qx))
    (hy : jsGet j yKey = some (Json.num qy)) :
    tryParseJSON text = some
      { state := if st = openChars then HandState.OPEN else HandState.CLOSED,
        x := JSNum.num (max (-1) (min 1 qx)),
        y := JSNum.num (max (-1) (min 1 qy)) } ∧
    -1 ≤ max (-1) (min 1 qx) ∧ max (-1) (min 1 qx) ≤ 1 ∧
    -1 ≤ max (-1) (min 1 qy) ∧ max (-1) (min 1 qy) ≤ 1 := by
  have hne : st ≠ [] := by
    rcases hvalid with rfl | rfl <;> simp [openChars, closedChars]
  constructor
  · simp only [tryParseJSON, hm, hj, hst, hx, hy]
    simp [truthy, isNum, isOpenStr, toNumber, jsMin, jsMax, hne, beq_iff_eq]
  · exact ⟨le_max_left _ _, max_le (by norm_num) (min_le_left _ _),
      le_max_left _ _, max_le (by norm_num) (min_le_left _ _)⟩

theorem valid_fragment_publishes_clamped_signal_witness :
    (jsMatchBrace exText = some exMatch ∧ jsonParse exMatch = some exJson ∧
      jsGet exJson stateKey = some (Json.str openChars) ∧
      jsGet exJson xKey = some (Json.num (5 / 2)) ∧
      jsGet exJson yKey = some (Json.num (-3))) ∧
    (tryParseJSON exText = some
      { state := if openChars = openChars then HandState.OPEN else HandState.CLOSED,
        x := JSNum.num (max (-1) (min 1 (5 / 2))),
        y := JSNum.num (max (-1) (min 1 (-3))) } ∧
     -1 ≤ max (-1) (min 1 ((5 : ℚ) / 2)) ∧ max (-1) (min 1 ((5 : ℚ) / 2)) ≤ 1 ∧
     -1 ≤ max (-1) (min 1 ((-3 : ℚ))) ∧ max (-1) (min 1 ((-3 : ℚ))) ≤ 1) := by
  have h1 : jsMatchBrace exText = some exMatch := by with_unfolding_all rfl
  have h2 : jsonParse exMatch = some exJson := by with_unfolding_all rfl
  have h3 : jsGet exJson stateKey = some (Json.str openChars) := by with_unfolding_all rfl
  have h4 : jsGet exJson xKey = some (Json.num (5 / 2)) := by with_unfolding_all rfl
  have h5 : jsGet exJson yKey = some (Json.num (-3)) := by with_unfolding_all rfl
  exact ⟨⟨h1, h2, h3, h4, h5⟩,
    valid_fragment_publishes_clamped_signal exText exMatch exJson openChars (5 / 2) (-3)
      h1 h2 h3 (Or.inl rfl) h4 h5⟩

/-- C3 counterexample: a fragment in which the required field y is absent
but state and x are present IS published (with y = NaN), contradicting the
claim that a fragment missing any of state, x or y yields no signal. -/
theorem missing_y_still_publishes :
    tryParseJSON exMissingY = some ⟨HandState.OPEN, JSNum.num 0, JSNum.nan⟩ ∧
    tryParseJSON exMissingY ≠ none := by
  have h : tryParseJSON exMissingY = some ⟨HandState.OPEN, JSNum.num 0, JSNum.nan⟩ := by
    with_unfolding_all rfl
  exact ⟨h, by rw [h]; simp⟩

/-- C3 (amended): the parser publishes no signal — and, the whole decode
being wrapped in a swallowing try/catch modelled by these total
Option-valued functions, raises no error — when the text contains no
brace-delimited substring, or the matched substring fails to parse as
JSON, or the state field is absent, or the x field is absent.  (An absent
y is NOT checked and does not suppress publication, per the
counterexample.) -/
theorem invalid_fragment_publishes_nothing (text : List Char) :
    ((¬ ∃ pre mid post, text = pre ++ '\x7b' :: mid ++ '\x7d' :: post) →
      tryParseJSON text = none) ∧
    (∀ m, jsMatchBrace text = some m → jsonParse m = none → tryParseJSON text = none) ∧
    (∀ m j, jsMatchBrace text = some m → jsonParse m = some j →
      jsGet j stateKey = none → tryParseJSON text = none) ∧
    (∀ m j, jsMatchBrace text = some m → jsonParse m = some j →
      jsGet j xKey = none → tryParseJSON text = none) := by
  refine ⟨?_, ?_, ?_, ?_⟩
  · intro hno
    cases hm : jsMatchBrace text with
    | none => simp only [tryParseJSON, hm]
    | some m => exact absurd (jsMatchBrace_some_split text m hm) hno
  · intro m hm hj
    simp only [tryParseJSON, hm, hj]
  · intro m j hm hj hst
    simp only [tryParseJSON, hm, hj, hst]
    simp [truthy]
  · intro m j hm hj hx
    simp only [tryParseJSON, hm, hj, hx]
    simp [isNum]

theorem invalid_fragment_publishes_nothing_witness :
    (jsMatchBrace exNoX = some exNoX ∧ jsonParse exNoX = some exNoXJson ∧
      jsGet exNoXJson xKey = none) ∧
    tryParseJSON exNoX = none := by
  have h1 : jsMatchBrace exNoX = some exNoX := by with_unfolding_all rfl
  have h2 : jsonParse exNoX = some exNoXJson := by with_unfolding_all rfl
  have h3 : jsGet exNoXJson xKey = none := by with_unfolding_all rfl
  exact ⟨⟨h1, h2, h3⟩,
    (invalid_fragment_publishes_nothing exNoX).2.2.2 exNoX exNoXJson h1 h2 h3⟩

/-- C10: every published signal has state OPEN or CLOSED — never UNKNOWN —
because the published state is OPEN exactly when the parsed state field is
the string OPEN, and CLOSED for every other truthy state value, the string
UNKNOWN included. -/
theorem published_state_never_unknown (text : List Char) (hd : HandData)
    (h : tryParseJSON text = some hd) :
    hd.state ≠ HandState.UNKNOWN ∧
    (hd.state = HandState.OPEN ∨ hd.state = HandState.CLOSED) ∧
    (∀ m j s, jsMatchBrace text = some m → jsonParse m = some j →
      jsGet j stateKey = some (Json.str s) → s ≠ openChars →
      hd.state = HandState.CLOSED) := by
  cases hm : jsMatchBrace text with
  | none =>
    simp only [tryParseJSON, hm] at h
    exact absurd h (by simp)
  | some m =>
    cases hj : jsonParse m with
    | none =>
      simp only [tryParseJSON, hm, hj] at h
      exact absurd h (by simp)
    | some j =>
      simp only [tryParseJSON, hm, hj] at h
      by_cases hcond : (truthy (jsGet j stateKey) && isNum (jsGet j xKey)) = true
      · rw [if_pos hcond] at h
        injection h with hrec
        subst hrec
        refine ⟨?_, ?_, ?_⟩
        · cases ho : isOpenStr (jsGet j stateKey) <;> simp [ho]
        · cases ho : isOpenStr (jsGet j stateKey) <;> simp [ho]
        · intro m' j' s hm' hj' hs hne
          injection hm' with hmeq
          subst hmeq
          rw [hj] at hj'
          injection hj' with hjeq
          subst hjeq
          simp [hs, isOpenStr, beq_eq_false_iff_ne.mpr hne]
      · rw [if_neg hcond] at h
        exact absurd h (by simp)

theorem published_state_never_unknown_witness :
    tryParseJSON exUnknown = some ⟨HandState.CLOSED, JSNum.num 0, JSNum.num 0⟩ ∧
    (⟨HandState.CLOSED, JSNum.num 0, JSNum.num 0⟩ : HandData).state ≠ HandState.UNKNOWN ∧
    ((⟨HandState.CLOSED, JSNum.num 0, JSNum.num 0⟩ : HandData).state = HandState.OPEN ∨
      (⟨HandState.CLOSED, JSNum.num 0, JSNum.num 0⟩ : HandData).state = HandState.CLOSED) := by
  have h : tryParseJSON exUnknown = some ⟨HandState.CLOSED, JSNum.num 0, JSNum.num 0⟩ := by
    with_unfolding_all rfl
  have hthm := published_state_never_unknown exUnknown _ h
  exact ⟨h, hthm.1, hthm.2.1⟩
